import Mathlib

set_option maxHeartbeats 1000000

namespace PM

/-! Shallow embedding of `src/markdown/to_markdown.js` (prosemirror markdown
serializer).  Strings are Lean `String`s; the mutable `MarkdownSerializer`
object becomes a record threaded through pure functions. -/

/-- Modelled from the spec: the mark types consumed by the serializer
(emphasis, strong, link, code span), each a kind plus its attributes; the
mark types themselves live in the missing `../model` module, with their
markdown markup attached in `to_markdown.js` lines 292-302. -/
inductive Mark where
  | em
  | strong
  | link (href : String) (title : Option String)
  | code
deriving DecidableEq

/-- The `markdownMixable` flag: set to `true` on `EmMark` and `StrongMark`
prototypes only (lines 293, 296); absent (falsy) on link and code marks. -/
def Mark.mixable : Mark → Bool
  | .em => true
  | .strong => true
  | _ => false

/-- Modelled from the spec: the `isCode` flag of a mark type (the *literal*
mark property of the missing `../model` module); only the code-span mark
carries it. -/
def Mark.isCode : Mark → Bool
  | .code => true
  | _ => false

/-- Trace events recording each markup emission of the inline renderer:
opening markup for a mark, closing markup for a mark, or a child node's
own content. -/
inductive Ev where
  | opn (m : Mark)
  | cls (m : Mark)
  | txt
deriving DecidableEq

inductive NodeKind where
  | text
  | paragraph
  | heading
  | blockquote
  | codeBlock
  | horizontalRule
  | bulletList
  | orderedList
  | listItem
  | image
  | hardBreak
deriving DecidableEq

/-- Modelled from the spec: document tree nodes (the node types of the
missing `../model` module), restricted to the kinds the serializer
dispatches on, each carrying exactly the attributes `to_markdown.js`
reads. -/
inductive Node where
  | text (content : String) (marks : List Mark)
  | paragraph (children : List Node)
  | heading (level : Nat) (children : List Node)
  | blockquote (children : List Node)
  | codeBlock (params : Option String) (content : String)
  | horizontalRule (markup : Option String)
  | bulletList (bullet : Option String) (tight : Bool) (children : List Node)
  | orderedList (order : Option Nat) (tight : Bool) (children : List Node)
  | listItem (children : List Node)
  | image (src : String) (alt : Option String) (title : Option String) (marks : List Mark)
  | hardBreak (marks : List Mark)

def Node.kind : Node → NodeKind
  | .text _ _ => .text
  | .paragraph _ => .paragraph
  | .heading _ _ => .heading
  | .blockquote _ => .blockquote
  | .codeBlock _ _ => .codeBlock
  | .horizontalRule _ => .horizontalRule
  | .bulletList _ _ _ => .bulletList
  | .orderedList _ _ _ => .orderedList
  | .listItem _ => .listItem
  | .image _ _ _ _ => .image
  | .hardBreak _ => .hardBreak

/-- Accessor `node.marks`: the marks of an inline node (empty for block nodes). -/
def Node.marks : Node → List Mark
  | .text _ ms => ms
  | .image _ _ _ ms => ms
  | .hardBreak ms => ms
  | _ => []

/-- Accessor `node.isText`. -/
def Node.isText : Node → Bool
  | .text _ _ => true
  | _ => false

/-- Accessor `node.text` of a text node. -/
def Node.textOf : Node → String
  | .text t _ => t
  | _ => ""

/-- JavaScript `a || b` for a possibly-absent string attribute: the default
is used when the attribute is missing *or* the empty string (falsy). -/
def jsOrStr : Option String → String → String
  | some s, d => if s = "" then d else s
  | none, d => d

/-- JavaScript `a || b` for a possibly-absent numeric attribute (`0` is
falsy). -/
def jsOrNat : Option Nat → Nat → Nat
  | some n, d => if n = 0 then d else n
  | none, d => d

/-- JavaScript `firstDelim || delim` inside `wrapBlock`. -/
def jsDelimVal (f d : String) : String := if f = "" then d else f

/-- Method `repeat(str, n)` of the serializer: `n` copies of `str` concatenated. -/
def repeatStr (s : String) (n : Nat) : String := String.join (List.replicate n s)

/-- Decimal digit list of `n` (fuel-driven so it evaluates by kernel
reduction); the embedding of JavaScript number-to-string conversion. -/
def natDigits : Nat → Nat → List Char
  | 0, _ => []
  | fuel+1, n => if n < 10 then [Nat.digitChar n] else natDigits fuel (n / 10) ++ [Nat.digitChar (n % 10)]

/-- JavaScript `String(n)` on a natural number. -/
def natToDec (n : Nat) : String := String.mk (natDigits (n + 1) n)

/-- Membership in the character class ``[`*\\~+\[\]]`` of the first
replace in `esc` (line 201). -/
def escSpecial (c : Char) : Bool :=
  c == Char.ofNat 96 || c == '*' || c == '\\' || c == '~' || c == '+' || c == '[' || c == ']'

/-- One character of the global replace of `esc`: a character of the class
is replaced by a backslash followed by the character, anything else is
kept. -/
def escCharL (c : Char) : List Char := if escSpecial c then ['\\', c] else [c]

/-- The global-replace pass of `esc`, applied to every character in
order. -/
def escListGo : List Char → List Char
  | [] => []
  | c :: cs => escCharL c ++ escListGo cs

/-- The string after the first (global) replace of `esc`. -/
def escBody (s : String) : String := String.mk (escListGo s.toList)

/-- The characters of the `^[:#-]` class: block-structural only at the
start of a line. -/
def isStructChar (c : Char) : Bool := c == ':' || c == '#' || c == '-'

/-- Whether a string begins with a block-structural character (the test of
the second, `startOfLine`-only replace of `esc`, applied here to the
original string; the first replace keeps the leading character of the
string unchanged unless it inserts a backslash before an escaped one). -/
def leadingStruct (s : String) : Bool :=
  match s.toList with
  | c :: _ => isStructChar c
  | [] => false

/-- Method `esc(str, startOfLine)` of the serializer (lines 200-204). -/
def esc (str : String) (startOfLine : Bool) : String :=
  let s1 := escBody str
  if startOfLine then
    match s1.toList with
    | c :: rest => if isStructChar c then String.mk ('\\' :: c :: rest) else s1
    | [] => s1
  else s1

/-- Method `quote(str)`: wrap in double quotes, else single quotes, else
parentheses (lines 206-209). -/
def quote (str : String) : String :=
  if ¬ str.toList.contains (Char.ofNat 34) then
    String.mk [Char.ofNat 34] ++ str ++ String.mk [Char.ofNat 34]
  else if ¬ str.toList.contains (Char.ofNat 39) then
    String.mk [Char.ofNat 39] ++ str ++ String.mk [Char.ofNat 39]
  else "(" ++ str ++ ")"

/-- JavaScript `\s` on the characters that can occur here. -/
def jsWhitespace (c : Char) : Bool :=
  c == ' ' || c == '\t' || c == '\n' || c == Char.ofNat 13 || c == Char.ofNat 11 || c == Char.ofNat 12

/-- Remove the trailing whitespace run (`delim.replace(/\s+$/, "")` effect
in `flushClose`, lines 48-50). -/
def trimR (s : String) : String := String.mk ((s.toList.reverse.dropWhile jsWhitespace).reverse)

/-- Splitting `text.split("\n")` at the character-list level. -/
def splitNl : List Char → List (List Char)
  | [] => [[]]
  | c :: rest =>
    let r := splitNl rest
    if c = '\n' then [] :: r
    else
      match r with
      | l :: t => (c :: l) :: t
      | [] => [[c]]

/-- Splitting `text.split("\n")`. -/
def splitLines (s : String) : List String := (splitNl s.toList).map String.mk

/-- Method `markString(mark, open)`: the opening or closing markup of a mark
(lines 221-224 together with the mark markup declarations, lines
292-302). -/
def markString (m : Mark) (isOpen : Bool) : String :=
  match m with
  | .em => "*"
  | .strong => "**"
  | .code => String.mk [Char.ofNat 96]
  | .link href title =>
    if isOpen then "["
    else
      "](" ++ esc href false ++
        (match title with
         | some t => if t = "" then "" else " " ++ quote t
         | none => "") ++ ")"

/-- The serializer state: output buffer, current line prefix, the lazily
flushed closed-block marker, the ambient tight-list flag and the options
object (its one recognized option). -/
structure MarkdownSerializer where
  delim : String := ""
  out : String := ""
  closed : Option Node := none
  inTightList : Bool := false
  hardBreak : Option String := none

abbrev MS := MarkdownSerializer

/-- Test `(^|\n)$` on a string (the regex inside `atBlank`). -/
def atBlankStr (s : String) : Bool :=
  match s.toList.getLast? with
  | none => true
  | some c => c == '\n'

/-- Method `atBlank()`. -/
def atBlank (st : MS) : Bool := atBlankStr st.out

/-- Append a newline unless the string is empty or already ends in one. -/
def ensureNLStr (s : String) : String := if atBlankStr s then s else s ++ "\n"

/-- Method `flushClose(size)` (lines 43-56); `none` is the omitted argument,
defaulting to 2. -/
def flushClose (st : MS) (size : Option Nat) : MS :=
  match st.closed with
  | none => st
  | some _ =>
    let st1 := if atBlank st then st else { st with out := st.out ++ "\n" }
    let sz := size.getD 2
    let st2 :=
      if 1 < sz then
        { st1 with out := st1.out ++ String.join (List.replicate (sz - 1) (trimR st1.delim ++ "\n")) }
      else st1
    { st2 with closed := none }

/-- Method `ensureNewLine()`. -/
def ensureNewLine (st : MS) : MS := if atBlank st then st else { st with out := st.out ++ "\n" }

/-- Method `write(content)`; `none` is a call with no argument. -/
def write (st : MS) (content : Option String) : MS :=
  let st1 := flushClose st none
  let st2 :=
    if st1.delim ≠ "" ∧ atBlank st1 = true then { st1 with out := st1.out ++ st1.delim } else st1
  match content with
  | some c => if c = "" then st2 else { st2 with out := st2.out ++ c }
  | none => st2

/-- Method `closeBlock(node)`. -/
def closeBlock (st : MS) (n : Node) : MS := { st with closed := some n }

/-- One iteration of the loop in `text(text, escape)`: emit one line,
with the line break when it is not the last line. -/
def writeLine (st : MS) (line : String) (escape : Bool) (addNl : Bool) : MS :=
  let startOfLine := atBlank st || st.closed.isSome
  let st1 := write st none
  let st2 := { st1 with out := st1.out ++ (if escape then esc line startOfLine else line) }
  if addNl then { st2 with out := st2.out ++ "\n" } else st2

def textLines (st : MS) (escape : Bool) : List String → MS
  | [] => st
  | [l] => writeLine st l escape false
  | l :: l2 :: rest => textLines (writeLine st l escape true) escape (l2 :: rest)

/-- Method `text(text, escape)` (lines 102-110). -/
def textOp (st : MS) (content : String) (escape : Bool) : MS :=
  textLines st escape (splitLines content)

/-- The first half of `wrapBlock` (line 63-66): write the first-line
delimiter and push `delim` onto the prefix stack. -/
def wrapPre (st : MS) (delim : String) (firstDelim : Option String) : MS :=
  let st1 := write st (some (match firstDelim with
    | some f => jsDelimVal f delim
    | none => delim))
  { st1 with delim := st1.delim ++ delim }

/-- The second half of `wrapBlock` (lines 67-69): restore the prefix stack
and close the block for `n`. -/
def wrapPost (st : MS) (old : String) (n : Node) : MS :=
  closeBlock { st with delim := old } n

/-- The inner scan of the mark-reordering pass: find an equal mark in
`active`, stopping at the first non-mixable entry (lines 140-149). -/
def Mark.findMixable (mark : Mark) : List Mark → Option Nat
  | [] => none
  | a :: rest =>
    if ¬ a.mixable then none
    else if mark = a then some 0
    else (Mark.findMixable mark rest).map (· + 1)

/-- The slice-based permutation applied when a mixable mark at position `i`
matches `active[j]` (lines 144-147). -/
def moveMark (ms : List Mark) (i j : Nat) (mark : Mark) : List Mark :=
  if j < i then ms.take j ++ [mark] ++ ((ms.drop j).take (i - j)) ++ ms.drop (i + 1)
  else if i < j then ms.take i ++ ((ms.drop (i + 1)).take (j - (i + 1))) ++ [mark] ++ ms.drop j
  else ms

/-- The outer loop of the reordering pass (`outer: for (let i ...)`),
fuel-driven over the fixed mark count. -/
def reorderGo (active : List Mark) : Nat → Nat → List Mark → List Mark
  | 0, _, ms => ms
  | fuel+1, i, ms =>
    match ms[i]? with
    | none => ms
    | some mark =>
      if ¬ mark.mixable then ms
      else
        match mark.findMixable active with
        | none => reorderGo active fuel (i + 1) ms
        | some j => reorderGo active fuel (i + 1) (moveMark ms i j mark)

/-- The whole reordering pass over a node's non-code marks (lines
137-151). -/
def reorder (active ms : List Mark) : List Mark := reorderGo active ms.length 0 ms

/-- Counter `keep`: length of the unchanged common prefix of `active` and the
reordered marks (lines 154-155). -/
def keepLen : List Mark → List Mark → Nat
  | a :: as1, b :: bs => if b = a then keepLen as1 bs + 1 else 0
  | _, _ => 0

/-- Marks closed by one `progress` step, innermost first (lines 158-159). -/
def toCloseList (active ms1 : List Mark) : List Mark :=
  (active.drop (keepLen active ms1)).reverse

/-- Marks opened by one `progress` step, outermost first (lines 162-166). -/
def toOpenList (active ms1 : List Mark) : List Mark :=
  ms1.drop (keepLen active ms1)

/-- The `active` stack after one `progress` step. -/
def nextActive (active ms : List Mark) : List Mark :=
  let r := reorder active ms
  active.take (keepLen active r) ++ toOpenList active r

/-- The markup events one `progress` step emits for the non-code marks. -/
def stepEvs (active ms : List Mark) : List Ev :=
  let r := reorder active ms
  (toCloseList active r).map Ev.cls ++ (toOpenList active r).map Ev.opn

/-- The state after the close/open emissions of one `progress` step. -/
def marksTransition (st : MS) (active ms : List Mark) : MS :=
  let r := reorder active ms
  let st1 := (toCloseList active r).foldl (fun s m => textOp s (markString m false) false) st
  (toOpenList active r).foldl (fun s m => textOp s (markString m true) false) st1

/-- Value `code`: the trailing code-span mark of a node's mark list, when
present (line 130). -/
def codeOf (marks : List Mark) : Option Mark :=
  match marks.getLast? with
  | some m => if m.isCode then some m else none
  | none => none

/-- The marks that take part in interleaving: all of them except a
trailing code mark (`len = marks.length - (code ? 1 : 0)`, line 131). -/
def effMarks (marks : List Mark) : List Mark :=
  match codeOf marks with
  | some _ => marks.dropLast
  | none => marks

/-- Check `this.closed && this.closed.type == node.type` for a list node of
kind `k` (line 182). -/
def listFlushKind (st : MS) (k : NodeKind) : Bool :=
  match st.closed with
  | some c => c.kind == k
  | none => false

/-- Per-item first-line prefix of an ordered list: right-aligned item
number plus `". "` (lines 264-267). -/
def orderedFd (start maxW i : Nat) : String :=
  repeatStr " " (maxW - (natToDec (start + i)).length) ++ natToDec (start + i) ++ ". "

mutual

/-- Method `render(node)`: dispatch through the `serializeMarkdown` table
(lines 114-116 and 229-288). -/
def render (st : MS) (n : Node) : MS :=
  match n with
  | .text content _ => textOp st content true
  | .paragraph cs =>
    closeBlock (renderInlineNodes st [] cs).1 (.paragraph cs)
  | .heading level cs =>
    let st1 := write st (some (repeatStr "#" level ++ " "))
    closeBlock (renderInlineNodes st1 [] cs).1 (.heading level cs)
  | .blockquote cs =>
    let old := st.delim
    wrapPost (renderContent (wrapPre st "> " none) cs) old (.blockquote cs)
  | .codeBlock none content =>
    let old := st.delim
    wrapPost (textOp (wrapPre st "    " none) content false) old (.codeBlock none content)
  | .codeBlock (some params) content =>
    let st1 := write st (some ("```" ++ params ++ "\n"))
    let st2 := textOp st1 content false
    let st3 := ensureNewLine st2
    let st4 := write st3 (some "```")
    closeBlock st4 (.codeBlock (some params) content)
  | .horizontalRule markup =>
    closeBlock (write st (some (jsOrStr markup "---"))) (.horizontalRule markup)
  | .bulletList bullet tight cs =>
    let st0 :=
      if listFlushKind st NodeKind.bulletList then flushClose st (some 3)
      else if st.inTightList then flushClose st (some 1) else st
    let prevTight := st0.inTightList
    let st1 := { st0 with inTightList := tight }
    let st2 := renderListItems st1 (.bulletList bullet tight cs) "  "
      (fun _ => jsOrStr bullet "*" ++ " ") tight 0 cs
    { st2 with inTightList := prevTight }
  | .orderedList order tight cs =>
    let start := jsOrNat order 1
    let maxW := (natToDec (start + cs.length - 1)).length
    let st0 :=
      if listFlushKind st NodeKind.orderedList then flushClose st (some 3)
      else if st.inTightList then flushClose st (some 1) else st
    let prevTight := st0.inTightList
    let st1 := { st0 with inTightList := tight }
    let st2 := renderListItems st1 (.orderedList order tight cs) (repeatStr " " (maxW + 2))
      (fun i => orderedFd start maxW i) tight 0 cs
    { st2 with inTightList := prevTight }
  | .listItem cs => renderContent st cs
  | .image src alt title _ =>
    write st (some ("![" ++ esc (jsOrStr alt "") false ++ "](" ++ esc src false ++
      (match title with
       | some t => if t = "" then "" else " " ++ quote t
       | none => "") ++ ")"))
  | .hardBreak _ =>
    write st (some (jsOrStr st.hardBreak "\\\n"))
termination_by 2 * sizeOf n

/-- Method `renderContent(parent)` (lines 120-122). -/
def renderContent (st : MS) (cs : List Node) : MS :=
  match cs with
  | [] => st
  | c :: rest => renderContent (render st c) rest
termination_by 2 * sizeOf cs

/-- Method `renderInline(parent)` (lines 126-179): thread the `active` stack over
the children and run the terminal `progress(null)` step; also returns the
markup-event trace. -/
def renderInlineNodes (st : MS) (active : List Mark) (cs : List Node) : MS × List Ev :=
  match cs with
  | [] =>
    let r := progress st active none
    (r.1, r.2.2)
  | c :: rest =>
    let r := progress st active (some c)
    let r2 := renderInlineNodes r.1 r.2.1 rest
    (r2.1, r.2.2 ++ r2.2)
termination_by 2 * sizeOf cs + 1

/-- The `progress` closure of `renderInline` (lines 128-176), for one
child (`some n`) or the terminal step (`none`). -/
def progress (st : MS) (active : List Mark) (child : Option Node) : MS × List Mark × List Ev :=
  match child with
  | none =>
    (marksTransition st active [], nextActive active [], stepEvs active [])
  | some n =>
    let ms := effMarks n.marks
    let st1 := marksTransition st active ms
    let active2 := nextActive active ms
    let st2 :=
      match codeOf n.marks with
      | some c =>
        if n.isText then textOp st1 (markString c false ++ n.textOf ++ markString c true) false
        else render st1 n
      | none => render st1 n
    (st2, active2, stepEvs active ms ++ [Ev.txt])
termination_by 2 * sizeOf child

/-- The item loop of `renderList` (lines 189-192), with `parent` the list
node itself. -/
def renderListItems (st : MS) (parent : Node) (delim : String) (fd : Nat → String)
    (tight : Bool) (i : Nat) (cs : List Node) : MS :=
  match cs with
  | [] => st
  | c :: rest =>
    let st0 := if 0 < i ∧ tight = true then flushClose st (some 1) else st
    let old := st0.delim
    let st1 := wrapPre st0 delim (some (fd i))
    let st2 := render st1 c
    let st3 := wrapPost st2 old parent
    renderListItems st3 parent delim fd tight (i + 1) rest
termination_by 2 * sizeOf cs + 1

end

/-- Entry point `toMarkdown(doc, options)` (lines 18-22): render the document's
children and return the buffer. -/
def toMarkdown (doc : List Node) (hardBreakOption : Option String) : String :=
  (renderContent { hardBreak := hardBreakOption } doc).out

/-- Stack-discipline checker for a markup-event trace: an opening event
pushes its mark, a closing event must match the innermost open mark and
pops it, and at the end of the trace no mark may remain open. -/
def checkBal : List Mark → List Ev → Bool
  | stack, [] => stack.isEmpty
  | stack, Ev.txt :: r => checkBal stack r
  | stack, Ev.opn m :: r => checkBal (m :: stack) r
  | top :: rest, Ev.cls m :: r => (top == m) && checkBal rest r
  | [], Ev.cls _ :: _ => false

/-- Adjacent-pair check: a closing event directly followed by an opening
event of an equal mark is the redundant close-then-immediately-reopen
pattern. -/
def okPair : Ev → Ev → Bool
  | Ev.cls m, Ev.opn n => !(m == n)
  | _, _ => true

/-- Check that a trace never closes a mark and immediately reopens an
equal mark. -/
def noCR : List Ev → Bool
  | e1 :: e2 :: r => okPair e1 e2 && noCR (e2 :: r)
  | _ => true

/-! ### Elementary string facts -/

theorem toList_mk (l : List Char) : (String.mk l).toList = l := rfl

theorem backslash_mk (l : List Char) : "\\" ++ String.mk l = String.mk ('\\' :: l) := rfl

/-! ### The escape function (claim C3) -/

theorem escListGo_join_map (l : List Char) :
    escListGo l = (l.map escCharL).flatten := by
  induction l with
  | nil => rfl
  | cons c cs ih => simp [escListGo, ih]

theorem special_not_struct (c : Char) (h : escSpecial c = true) : isStructChar c = false := by
  by_cases h1 : c = ':'
  · subst h1; exact absurd h (by decide)
  by_cases h2 : c = '#'
  · subst h2; exact absurd h (by decide)
  by_cases h3 : c = '-'
  · subst h3; exact absurd h (by decide)
  simp [isStructChar, beq_iff_eq, h1, h2, h3]

theorem leadingStruct_escBody (s : String) :
    leadingStruct (escBody s) = leadingStruct s := by
  unfold leadingStruct escBody
  cases hs : s.toList with
  | nil => simp [escListGo, toList_mk]
  | cons c cs =>
    simp only [toList_mk, escListGo, escCharL]
    by_cases h : escSpecial c
    · simp only [h, if_pos]
      have h2 := special_not_struct c h
      simp [h2]
      decide
    · simp [h]

theorem esc_eq (s : String) (st : Bool) :
    esc s st = (if st && leadingStruct s then "\\" ++ escBody s else escBody s) := by
  unfold esc
  cases st with
  | false => simp
  | true =>
    simp only [Bool.true_and, if_true]
    rw [← leadingStruct_escBody s]
    generalize escBody s = b
    cases b with
    | mk l =>
      cases l with
      | nil => simp [leadingStruct, toList_mk]
      | cons c rest =>
        simp only [leadingStruct, toList_mk]
        by_cases hc : isStructChar c <;> simp [hc, backslash_mk]

/-- C3: the escape function backslash-escapes every occurrence of the
characters of the literal class anywhere in the string, and escapes a
leading `:`, `#` or `-` exactly when the `startOfLine` flag is set; the
same characters elsewhere, or with the flag unset, are left alone. -/
theorem c3_esc_characterization (s : String) (st : Bool) :
    esc s st = (if st && leadingStruct s then "\\" ++ escBody s else escBody s)
    ∧ (escBody s).toList = (s.toList.map escCharL).flatten
    ∧ (∀ c : Char, escCharL c = if escSpecial c = true then ['\\', c] else [c]) :=
  ⟨esc_eq s st, by simp [escBody, toList_mk, escListGo_join_map], fun c => rfl⟩

/-! ### flushClose (claim C4) -/

/-- C4: with a pending block closure, `flushClose(size)` first makes the
buffer end at a line break, then appends `size - 1` lines consisting of
the trimmed prefix followed by a line break, then clears the pending
marker, leaving every other field unchanged; with no pending closure it
is the identity. -/
theorem flushClose_pending (st : MS) (sz : Option Nat) (q : Node) (hq : st.closed = some q) :
    flushClose st sz =
      { st with
          out := ensureNLStr st.out ++
            String.join (List.replicate (sz.getD 2 - 1) (trimR st.delim ++ "\n")),
          closed := none } := by
  unfold flushClose
  rw [hq]
  by_cases hb : atBlankStr st.out <;> by_cases hsz : 1 < sz.getD 2 <;>
    simp only [atBlank, hb, hsz, ensureNLStr, if_pos, if_neg, if_true, if_false,
      Bool.not_eq_true, reduceIte]
  · have h1 : sz.getD 2 - 1 = 0 := by omega
    have h2 : String.join ([] : List String) = "" := rfl
    simp [h1, h2, String.append_empty]
  · have h1 : sz.getD 2 - 1 = 0 := by omega
    have h2 : String.join ([] : List String) = "" := rfl
    simp [h1, h2, String.append_empty]

theorem flushClose_not_pending (st : MS) (sz : Option Nat) (hq : st.closed = none) :
    flushClose st sz = st := by
  unfold flushClose
  rw [hq]

theorem c4_flushClose_spec (st : MS) (size : Nat) :
    (∀ q, st.closed = some q →
      flushClose st (some size) =
        { st with
            out := ensureNLStr st.out ++
              String.join (List.replicate (size - 1) (trimR st.delim ++ "\n")),
            closed := none })
    ∧ (st.closed = none → flushClose st (some size) = st) := by
  constructor
  · intro q hq
    exact flushClose_pending st (some size) q hq
  · intro hq
    exact flushClose_not_pending st (some size) hq

/-- Witness for C4 at a blockquote prefix: one pending closure, default
blank-line count, inside a `"> "` prefix; the inserted blank line carries
`">"` with the trailing space removed. -/
theorem c4_flushClose_spec_witness :
    flushClose { delim := "> ", out := "x", closed := some (Node.paragraph []) } (some 2) =
      { delim := "> ", out := "x\n>\n", closed := none } :=
  (c4_flushClose_spec { delim := "> ", out := "x", closed := some (Node.paragraph []) } 2).1
    (Node.paragraph []) rfl

/-! ### Unfolding lemmas for the inline renderer -/

theorem progress_none (st : MS) (active : List Mark) :
    progress st active none =
      (marksTransition st active [], nextActive active [], stepEvs active []) := by
  simp [progress]

theorem progress_some_trace (st : MS) (active : List Mark) (c : Node) :
    (progress st active (some c)).2.2 = stepEvs active (effMarks c.marks) ++ [Ev.txt] := by
  simp [progress]

theorem progress_some_active (st : MS) (active : List Mark) (c : Node) :
    (progress st active (some c)).2.1 = nextActive active (effMarks c.marks) := by
  simp [progress]

theorem renderInlineNodes_nil (st : MS) (active : List Mark) :
    renderInlineNodes st active [] =
      ((progress st active none).1, (progress st active none).2.2) := by
  simp [renderInlineNodes]

theorem renderInlineNodes_cons (st : MS) (active : List Mark) (c : Node) (rest : List Node) :
    renderInlineNodes st active (c :: rest) =
      ((renderInlineNodes (progress st active (some c)).1
          (progress st active (some c)).2.1 rest).1,
        (progress st active (some c)).2.2 ++
          (renderInlineNodes (progress st active (some c)).1
            (progress st active (some c)).2.1 rest).2) := by
  simp [renderInlineNodes]

theorem keepLen_nil (a : List Mark) : keepLen a [] = 0 := by cases a <;> rfl

theorem reorder_nil (active : List Mark) : reorder active [] = [] := rfl

theorem nextActive_nil (active : List Mark) : nextActive active [] = [] := by
  simp [nextActive, reorder_nil, keepLen_nil, toOpenList]

theorem stepEvs_nil (active : List Mark) :
    stepEvs active [] = active.reverse.map Ev.cls := by
  simp [stepEvs, reorder_nil, keepLen_nil, toOpenList, toCloseList]

/-! ### Balanced traces (claim C2) -/

theorem checkBal_cls_append (d stack : List Mark) (k : List Ev) :
    checkBal (d ++ stack) (d.map Ev.cls ++ k) = checkBal stack k := by
  induction d with
  | nil => rfl
  | cons x xs ih => simp [checkBal, ih]

theorem checkBal_opn_append (o : List Mark) (stack : List Mark) (k : List Ev) :
    checkBal stack (o.map Ev.opn ++ k) = checkBal (o.reverse ++ stack) k := by
  induction o generalizing stack with
  | nil => rfl
  | cons x xs ih =>
    simp only [List.map_cons, List.cons_append, checkBal, ih (x :: stack),
      List.reverse_cons, List.append_assoc, List.singleton_append, List.nil_append]

theorem checkBal_step (active ms : List Mark) (k : List Ev) :
    checkBal active.reverse (stepEvs active ms ++ k) =
      checkBal (nextActive active ms).reverse k := by
  simp only [stepEvs, nextActive, toCloseList, toOpenList]
  have h1 : active.reverse =
      (active.drop (keepLen active (reorder active ms))).reverse ++
        (active.take (keepLen active (reorder active ms))).reverse := by
    rw [← List.reverse_append, List.take_append_drop]
  rw [h1, List.append_assoc, checkBal_cls_append, checkBal_opn_append, List.reverse_append]

theorem checkBal_txt (stack : List Mark) (r : List Ev) :
    checkBal stack (Ev.txt :: r) = checkBal stack r := by
  cases stack <;> rfl

theorem checkBal_renderInline (cs : List Node) :
    ∀ (st : MS) (active : List Mark),
      checkBal active.reverse (renderInlineNodes st active cs).2 = true := by
  induction cs with
  | nil =>
    intro st active
    rw [renderInlineNodes_nil, progress_none]
    have h := checkBal_step active [] []
    rw [List.append_nil] at h
    rw [h, nextActive_nil]
    rfl
  | cons c rest ih =>
    intro st active
    rw [renderInlineNodes_cons]
    simp only
    rw [progress_some_trace, progress_some_active, List.append_assoc, checkBal_step,
      List.singleton_append, checkBal_txt]
    exact ih _ _

/-- C2: over any run of inline children, the markup-event trace of the
inline renderer is well bracketed: every opening markup emission has a
matching closing emission before the run ends (the terminal step with no
child closes everything left open), and closings occur in exactly the
reverse order of the matching openings. -/
theorem c2_marks_balanced (st : MS) (cs : List Node) :
    checkBal [] (renderInlineNodes st [] cs).2 = true := by
  have h := checkBal_renderInline cs st []
  simpa using h

/-! ### No close-then-immediately-reopen (claim C8) -/

theorem keepLen_drop_ne (a : List Mark) :
    ∀ (b : List Mark) (m n : Mark),
      (a.drop (keepLen a b)).head? = some m →
      (b.drop (keepLen a b)).head? = some n → m ≠ n := by
  induction a with
  | nil => intro b m n ha _; simp at ha
  | cons x xs ih =>
    intro b m n ha hb
    cases b with
    | nil => rw [keepLen_nil] at hb; simp at hb
    | cons y ys =>
      by_cases hxy : y = x
      · subst hxy
        simp only [keepLen, if_pos rfl, List.drop_succ_cons] at ha hb
        exact ih ys m n ha hb
      · simp only [keepLen, if_neg hxy, List.drop_zero, List.head?_cons,
          Option.some.injEq] at ha hb
        subst ha; subst hb
        exact fun he => hxy he.symm

theorem toCloseList_getLast? (active r : List Mark) :
    (toCloseList active r).getLast? = (active.drop (keepLen active r)).head? := by
  simp [toCloseList, List.getLast?_reverse]

theorem okPair_opn_left (m : Mark) (e : Ev) : okPair (Ev.opn m) e = true := by
  cases e <;> rfl

theorem okPair_txt_left (e : Ev) : okPair Ev.txt e = true := by
  cases e <;> rfl

theorem noCR_txt_cons (T : List Ev) : noCR (Ev.txt :: T) = noCR T := by
  cases T with
  | nil => rfl
  | cons e r => simp [noCR, okPair_txt_left]

theorem noCR_opn_append (o : List Mark) (k : List Ev) (h : noCR k = true) :
    noCR (o.map Ev.opn ++ k) = true := by
  induction o with
  | nil => simpa
  | cons x xs ih =>
    simp only [List.map_cons, List.cons_append]
    cases hx : xs.map Ev.opn ++ k with
    | nil => rfl
    | cons e r =>
      rw [hx] at ih
      simp [noCR, okPair_opn_left, ih]

theorem noCR_cls_append (c : List Mark) (k : List Ev)
    (hb : ∀ m n r, c.getLast? = some m → k = Ev.opn n :: r → m ≠ n)
    (h : noCR k = true) : noCR (c.map Ev.cls ++ k) = true := by
  induction c with
  | nil => simpa
  | cons x xs ih =>
    cases xs with
    | nil =>
      cases k with
      | nil => rfl
      | cons e r =>
        have hn : okPair (Ev.cls x) e = true := by
          cases e with
          | opn n =>
            have hne := hb x n r rfl rfl
            simp [okPair, hne]
          | cls m => rfl
          | txt => rfl
        simpa [noCR, hn] using h
    | cons y ys =>
      have ih2 := ih (fun m n r hm hk =>
        hb m n r (by rw [List.getLast?_cons_cons]; exact hm) hk)
      simpa [noCR, okPair] using ih2

theorem noCR_step (active ms : List Mark) (k : List Ev)
    (hk : noCR k = true) (hhead : ∀ n r, k ≠ Ev.opn n :: r) :
    noCR (stepEvs active ms ++ k) = true := by
  simp only [stepEvs, List.append_assoc]
  apply noCR_cls_append
  · intro m n rr hm hk2
    rw [toCloseList_getLast?] at hm
    cases ho : toOpenList active (reorder active ms) with
    | nil =>
      rw [ho] at hk2
      simp only [List.map_nil, List.nil_append] at hk2
      exact absurd hk2 (hhead n rr)
    | cons o0 os =>
      rw [ho] at hk2
      simp only [List.map_cons, List.cons_append, List.cons.injEq, Ev.opn.injEq] at hk2
      have hb2 : ((reorder active ms).drop (keepLen active (reorder active ms))).head? =
          some n := by
        have : toOpenList active (reorder active ms) = o0 :: os := ho
        simp only [toOpenList] at this
        rw [this, List.head?_cons, hk2.1]
      exact keepLen_drop_ne active (reorder active ms) m n hm hb2
  · exact noCR_opn_append _ _ hk

theorem noCR_renderInline (cs : List Node) :
    ∀ (st : MS) (active : List Mark), noCR (renderInlineNodes st active cs).2 = true := by
  induction cs with
  | nil =>
    intro st active
    rw [renderInlineNodes_nil, progress_none]
    have h := noCR_step active [] [] rfl (fun n r hp => by simp at hp)
    simpa using h
  | cons c rest ih =>
    intro st active
    rw [renderInlineNodes_cons]
    simp only
    rw [progress_some_trace, List.append_assoc, List.singleton_append]
    apply noCR_step
    · rw [noCR_txt_cons, progress_some_active]
      exact ih _ _
    · intro n r hp; simp at hp

/-- C8: the inline renderer's markup-event trace never contains a closing
emission immediately followed by an opening emission of an equal mark: a
mark that stays active across adjacent children (after the mixable
reordering pass) is kept open rather than closed and instantly reopened,
so no redundant close/open transition pair is ever produced. -/
theorem c8_no_close_reopen (st : MS) (cs : List Node) :
    noCR (renderInlineNodes st [] cs).2 = true :=
  noCR_renderInline cs st []

/-! ### Atomic code spans (claim C1) -/

/-- C1: a text node whose innermost (last) mark is the literal code mark is
emitted as a single unescaped text call: opening markup, then the raw
text, then closing markup, none of the three escaped (the code mark is
excluded from the interleaving, whose transition state is untouched). -/
theorem c1_literal_atomic (st : MS) (active : List Mark) (t : String) (marks : List Mark)
    (m : Mark) (hlast : marks.getLast? = some m) (hcode : m.isCode = true) :
    (progress st active (some (Node.text t marks))).1 =
      textOp (marksTransition st active marks.dropLast)
        (markString m true ++ t ++ markString m false) false := by
  have hm : m = Mark.code := by
    cases m with
    | code => rfl
    | em => simp [Mark.isCode] at hcode
    | strong => simp [Mark.isCode] at hcode
    | link href title => simp [Mark.isCode] at hcode
  subst hm
  have hc : codeOf marks = some Mark.code := by
    simp [codeOf, hlast, Mark.isCode]
  have he : effMarks marks = marks.dropLast := by
    simp [effMarks, hc]
  simp [progress, hc, he, Node.marks, Node.isText, Node.textOf, markString]

/-- Witness for C1: the text node `"a*b"` carrying one code mark, rendered
with an empty active stack; the text is wrapped in backticks with no
escaping of the inner `*`. -/
theorem c1_literal_atomic_witness :
    ([Mark.code].getLast? = some Mark.code)
    ∧ (progress {} [] (some (Node.text "a*b" [Mark.code]))).1 =
        textOp (marksTransition {} [] ([Mark.code].dropLast))
          (markString Mark.code true ++ "a*b" ++ markString Mark.code false) false :=
  ⟨rfl, c1_literal_atomic {} [] "a*b" [Mark.code] Mark.code rfl rfl⟩

/-! ### Image attribute defaults (claim C9) -/

set_option maxRecDepth 200000 in
unseal render renderContent renderInlineNodes progress renderListItems in
/-- C9: an image with no alt attribute renders the alt position as the
empty string and an image with no title renders no quoted-title segment;
serialization succeeds, and the concrete node with `src="a.png"`, no alt
and no title serializes to `![](a.png)`. -/
theorem c9_image_defaults (st : MS) (src : String) (ms : List Mark) :
    render st (Node.image src none none ms) =
      write st (some ("![](" ++ esc src false ++ ")"))
    ∧ toMarkdown [Node.paragraph [Node.image "a.png" none none []]] none = "![](a.png)" := by
  constructor
  · have h0 : esc (jsOrStr none "") false = "" := rfl
    have h1 : ("![" : String) ++ "](" = "![](" := rfl
    simp only [render, h0, String.append_empty, h1]
  · rfl

/-! ### Hard break option handling (claim C10) -/

/-- C10: a hard-break node emits the configured `hardBreak` option string
only when that string is non-empty; an absent option or an empty-string
override both fall back to the default backslash-plus-newline markup. -/
theorem c10_hard_break_default (st : MS) (ms : List Mark) :
    (∀ s, st.hardBreak = some s → s ≠ "" →
      render st (Node.hardBreak ms) = write st (some s))
    ∧ (st.hardBreak = some "" → render st (Node.hardBreak ms) = write st (some "\\\n"))
    ∧ (st.hardBreak = none → render st (Node.hardBreak ms) = write st (some "\\\n")) := by
  refine ⟨?_, ?_, ?_⟩
  · intro s hs hne
    simp [render, jsOrStr, hs, hne]
  · intro hs
    simp [render, jsOrStr, hs]
  · intro hs
    simp [render, jsOrStr, hs]

/-- Witness for C10: an empty-string `hardBreak` override still emits the
default backslash-plus-newline markup. -/
theorem c10_hard_break_default_witness :
    (({ hardBreak := some "" } : MS).hardBreak = some "")
    ∧ render { hardBreak := some "" } (Node.hardBreak []) =
        write { hardBreak := some "" } (some "\\\n") :=
  ⟨rfl, (c10_hard_break_default { hardBreak := some "" } []).2.1 rfl⟩

/-! ### The output buffer only grows -/

theorem outGrow_refl (a : String) : ∃ u : String, a = a ++ u :=
  ⟨"", (String.append_empty a).symm⟩

theorem outGrow_app (a t : String) : ∃ u : String, a ++ t = a ++ u := ⟨t, rfl⟩

theorem outGrow_trans {a b c : String} (h1 : ∃ u, b = a ++ u) (h2 : ∃ v, c = b ++ v) :
    ∃ w : String, c = a ++ w := by
  obtain ⟨u, h1⟩ := h1
  obtain ⟨v, h2⟩ := h2
  exact ⟨u ++ v, by rw [h2, h1, String.append_assoc]⟩

theorem flushClose_ext (st : MS) (sz : Option Nat) :
    ∃ u, (flushClose st sz).out = st.out ++ u := by
  unfold flushClose
  cases hc : st.closed with
  | none => exact outGrow_refl _
  | some q =>
    by_cases hb : atBlank st <;> by_cases hsz : 1 < sz.getD 2 <;>
      simp only [hb, hsz, if_true, if_false, reduceIte]
    · exact outGrow_app _ _
    · exact outGrow_refl _
    · exact outGrow_trans (outGrow_app _ _) (outGrow_app _ _)
    · exact outGrow_app _ _

theorem ensureNewLine_ext (st : MS) : ∃ u, (ensureNewLine st).out = st.out ++ u := by
  unfold ensureNewLine
  by_cases hb : atBlank st <;> simp only [hb, if_true, if_false, reduceIte]
  · exact outGrow_refl _
  · exact outGrow_app _ _

theorem write_ext (st : MS) (c : Option String) : ∃ u, (write st c).out = st.out ++ u := by
  have h1 := flushClose_ext st none
  unfold write
  have h2 : ∃ u, (if (flushClose st none).delim ≠ "" ∧ atBlank (flushClose st none) = true
      then { flushClose st none with out := (flushClose st none).out ++ (flushClose st none).delim }
      else flushClose st none).out = (flushClose st none).out ++ u := by
    split
    · exact outGrow_app _ _
    · exact outGrow_refl _
  have h12 := outGrow_trans h1 h2
  match c with
  | none => exact h12
  | some cc =>
    by_cases hcc : cc = ""
    · simp only [hcc, if_pos, reduceIte]
      exact h12
    · simp only [if_neg hcc]
      exact outGrow_trans h12 (outGrow_app _ _)

theorem writeLine_ext (st : MS) (line : String) (escape addNl : Bool) :
    ∃ u, (writeLine st line escape addNl).out = st.out ++ u := by
  unfold writeLine
  have h1 := write_ext st none
  have h2 := outGrow_trans h1 (outGrow_app (write st none).out
    (if escape then esc line (atBlank st || st.closed.isSome) else line))
  by_cases ha : addNl <;> simp only [ha, if_true, if_false, reduceIte]
  · exact outGrow_trans h2 (outGrow_app _ _)
  · exact h2

theorem textLines_ext (lines : List String) :
    ∀ (st : MS) (escape : Bool), ∃ u, (textLines st escape lines).out = st.out ++ u := by
  induction lines with
  | nil => intro st escape; exact outGrow_refl _
  | cons l rest ih =>
    intro st escape
    cases rest with
    | nil => exact writeLine_ext st l escape false
    | cons l2 rest2 =>
      exact outGrow_trans (writeLine_ext st l escape true) (ih _ escape)

theorem textOp_ext (st : MS) (content : String) (escape : Bool) :
    ∃ u, (textOp st content escape).out = st.out ++ u :=
  textLines_ext (splitLines content) st escape

theorem foldText_ext (g : Mark → String) (l : List Mark) :
    ∀ st : MS, ∃ u, (l.foldl (fun s m => textOp s (g m) false) st).out = st.out ++ u := by
  induction l with
  | nil => intro st; exact outGrow_refl _
  | cons m rest ih =>
    intro st
    exact outGrow_trans (textOp_ext st (g m) false) (ih _)

theorem marksTransition_ext (st : MS) (active ms : List Mark) :
    ∃ u, (marksTransition st active ms).out = st.out ++ u := by
  unfold marksTransition
  exact outGrow_trans (foldText_ext _ _ st) (foldText_ext _ _ _)

theorem wrapPre_ext (st : MS) (delim : String) (fd : Option String) :
    ∃ u, (wrapPre st delim fd).out = st.out ++ u := by
  unfold wrapPre
  exact write_ext st _

theorem wrapPost_out (st : MS) (old : String) (n : Node) :
    (wrapPost st old n).out = st.out := rfl

theorem closeBlock_out (st : MS) (n : Node) : (closeBlock st n).out = st.out := rfl

theorem out_monotone :
    (∀ (st : MS) (n : Node), ∃ u, (render st n).out = st.out ++ u) ∧
    (∀ (st : MS) (parent : Node) (delim : String) (fd : Nat → String) (tight : Bool) (i : Nat)
        (cs : List Node), ∃ u, (renderListItems st parent delim fd tight i cs).out = st.out ++ u) ∧
    (∀ (st : MS) (cs : List Node), ∃ u, (renderContent st cs).out = st.out ++ u) ∧
    (∀ (st : MS) (active : List Mark) (cs : List Node),
        ∃ u, ((renderInlineNodes st active cs).1).out = st.out ++ u) ∧
    (∀ (st : MS) (active : List Mark) (child : Option Node),
        ∃ u, ((progress st active child).1).out = st.out ++ u) := by
  apply render.mutual_induct
    (fun st n => ∃ u, (render st n).out = st.out ++ u)
    (fun st parent delim fd tight i cs =>
      ∃ u, (renderListItems st parent delim fd tight i cs).out = st.out ++ u)
    (fun st cs => ∃ u, (renderContent st cs).out = st.out ++ u)
    (fun st active cs => ∃ u, ((renderInlineNodes st active cs).1).out = st.out ++ u)
    (fun st active child => ∃ u, ((progress st active child).1).out = st.out ++ u)
  · intro st content marks
    simp only [render]
    exact textOp_ext st content true
  · intro st cs ih
    simp only [render, closeBlock_out]
    exact ih
  · intro st level cs st1 ih
    simp only [render, closeBlock_out]
    exact outGrow_trans (write_ext st _) ih
  · intro st cs ih
    simp only [render, wrapPost_out]
    exact outGrow_trans (wrapPre_ext st "> " none) ih
  · intro st content
    simp only [render, wrapPost_out]
    exact outGrow_trans (wrapPre_ext st "    " none) (textOp_ext _ content false)
  · intro st params content
    simp only [render, closeBlock_out]
    exact outGrow_trans (outGrow_trans (outGrow_trans (write_ext st _)
      (textOp_ext _ content false)) (ensureNewLine_ext _)) (write_ext _ _)
  · intro st markup
    simp only [render, closeBlock_out]
    exact write_ext st _
  · intro st bullet tight cs st0 st1 ih
    simp only [dite_eq_ite] at ih
    simp only [render]
    have h0 : ∃ u, (if listFlushKind st NodeKind.bulletList = true then flushClose st (some 3)
        else if st.inTightList = true then flushClose st (some 1) else st).out = st.out ++ u := by
      split
      · exact flushClose_ext _ _
      · split
        · exact flushClose_ext _ _
        · exact outGrow_refl _
    exact outGrow_trans h0 ih
  · intro st order tight cs start maxW st0 st1 ih
    simp only [dite_eq_ite] at ih
    simp only [render]
    have h0 : ∃ u, (if listFlushKind st NodeKind.orderedList = true then flushClose st (some 3)
        else if st.inTightList = true then flushClose st (some 1) else st).out = st.out ++ u := by
      split
      · exact flushClose_ext _ _
      · split
        · exact flushClose_ext _ _
        · exact outGrow_refl _
    exact outGrow_trans h0 ih
  · intro st cs ih
    simp only [render]
    exact ih
  · intro st src alt title marks
    rw [render.eq_def]
    exact write_ext st _
  · intro st marks
    simp only [render]
    exact write_ext st _
  · intro st parent delim fd tight i
    simp only [renderListItems]
    exact outGrow_refl _
  · intro st parent delim fd tight i c rest st0 old st1 st2 st3 ih1 ih1b ih2
    simp only [dite_eq_ite] at ih1 ih1b ih2
    simp only [renderListItems]
    have h0 : ∃ u, (if 0 < i ∧ tight = true then flushClose st (some 1) else st).out
        = st.out ++ u := by
      split
      · exact flushClose_ext _ _
      · exact outGrow_refl _
    have ihw : ∃ u,
        (renderListItems
          (wrapPost (render (wrapPre (if 0 < i ∧ tight = true then flushClose st (some 1) else st)
            delim (some (fd i))) c)
            (if 0 < i ∧ tight = true then flushClose st (some 1) else st).delim parent)
          parent delim fd tight (i + 1) rest).out =
        (render (wrapPre (if 0 < i ∧ tight = true then flushClose st (some 1) else st)
          delim (some (fd i))) c).out ++ u := by
      have h := ih2
      rw [wrapPost_out] at h
      exact h
    exact outGrow_trans (outGrow_trans (outGrow_trans h0 (wrapPre_ext _ delim (some (fd i)))) ih1b) ihw
  · intro st
    simp only [renderContent]
    exact outGrow_refl _
  · intro st c rest ih1 ih2
    simp only [renderContent]
    exact outGrow_trans ih1 ih2
  · intro st active ih
    simp only [renderInlineNodes]
    exact ih
  · intro st active c rest r ih1 ih2
    simp only [renderInlineNodes]
    exact outGrow_trans ih1 ih2
  · intro st active
    simp only [progress]
    exact marksTransition_ext st active []
  · intro st active val ms st1 ih
    simp only [progress]
    have hm := marksTransition_ext st active (effMarks val.marks)
    cases hc : codeOf val.marks with
    | some c =>
      simp only [hc]
      by_cases ht : val.isText <;> simp only [ht, if_true, if_false, reduceIte]
      · exact outGrow_trans hm (textOp_ext _ _ false)
      · exact outGrow_trans hm ih
    | none =>
      simp only [hc]
      exact outGrow_trans hm ih

/-! ### Behavior of write on clean and pending states -/

theorem toList_append (a b : String) : (a ++ b).toList = a.toList ++ b.toList := rfl

theorem atBlankStr_append_newline (a : String) : atBlankStr (a ++ "\n") = true := by
  unfold atBlankStr
  rw [toList_append]
  have h : ("\n" : String).toList = ['\n'] := rfl
  rw [h, List.getLast?_concat]
  rfl

theorem atBlankStr_ensureNLStr (s : String) : atBlankStr (ensureNLStr s) = true := by
  unfold ensureNLStr
  by_cases h : atBlankStr s
  · simp [h]
  · simp [h, atBlankStr_append_newline]

theorem write_some_clean (st : MS) (v : String) (hc : st.closed = none)
    (hb : atBlankStr st.out = true) :
    write st (some v) = { st with out := st.out ++ st.delim ++ v } := by
  unfold write
  rw [flushClose_not_pending st none hc]
  by_cases hd : st.delim = "" <;> by_cases hv : v = "" <;>
    simp [hd, hv, atBlank, hb, String.append_empty]
  all_goals rw [← hd]

theorem write_some_pending (st : MS) (v : String) (q : Node) (hq : st.closed = some q) :
    write st (some v) =
      { st with
          out := (ensureNLStr st.out ++ (trimR st.delim ++ "\n")) ++ st.delim ++ v,
          closed := none } := by
  unfold write
  rw [flushClose_pending st none q hq]
  have hjoin : String.join (List.replicate ((none : Option Nat).getD 2 - 1) (trimR st.delim ++ "\n"))
      = trimR st.delim ++ "\n" := by
    show String.join [trimR st.delim ++ "\n"] = trimR st.delim ++ "\n"
    show "" ++ (trimR st.delim ++ "\n") = trimR st.delim ++ "\n"
    exact String.empty_append _
  rw [hjoin]
  have hb1 : atBlankStr (ensureNLStr st.out ++ (trimR st.delim ++ "\n")) = true := by
    rw [← String.append_assoc]
    exact atBlankStr_append_newline _
  by_cases hd : st.delim = "" <;> by_cases hv : v = "" <;>
    simp [hd, hv, atBlank, hb1, String.append_empty]

/-! ### Tight and loose item spacing (claim C6) -/

set_option maxRecDepth 400000 in
unseal render renderContent renderInlineNodes progress renderListItems in
/-- C6: between consecutive items (index above zero) of a tight list the
item loop forces `flushClose(1)`, so the next item begins right after a
single line break carrying the active prefix and its first-line
delimiter, with no blank line; in a non-tight list the pending closure is
instead flushed at the default size by the item's opening write,
inserting exactly one blank line, the trimmed prefix followed by a line
break, before the item begins; a two-item tight bullet list serializes
with no blank line between items, a loose one with one blank line. -/
theorem c6_tight_item_spacing (st : MS) (parent : Node) (d : String) (fd : Nat → String)
    (j : Nat) (c : Node) (rest : List Node) (q : Node) (hq : st.closed = some q) :
    (renderListItems st parent d fd true (j + 1) (c :: rest) =
      renderListItems
        (wrapPost
          (render
            { st with
                out := ensureNLStr st.out ++ st.delim ++ jsDelimVal (fd (j + 1)) d,
                delim := st.delim ++ d, closed := none } c)
          st.delim parent)
        parent d fd true (j + 2) rest)
    ∧ (renderListItems st parent d fd false (j + 1) (c :: rest) =
      renderListItems
        (wrapPost
          (render
            { st with
                out := (ensureNLStr st.out ++ (trimR st.delim ++ "\n")) ++ st.delim ++
                  jsDelimVal (fd (j + 1)) d,
                delim := st.delim ++ d, closed := none } c)
          st.delim parent)
        parent d fd false (j + 2) rest)
    ∧ toMarkdown [Node.bulletList none true
        [Node.listItem [Node.paragraph [Node.text "a" []]],
         Node.listItem [Node.paragraph [Node.text "b" []]]]] none = "* a\n* b"
    ∧ toMarkdown [Node.bulletList none false
        [Node.listItem [Node.paragraph [Node.text "a" []]],
         Node.listItem [Node.paragraph [Node.text "b" []]]]] none = "* a\n\n* b" := by
  refine ⟨?_, ?_, rfl, rfl⟩
  · simp only [renderListItems]
    rw [if_pos (show 0 < j + 1 ∧ True from ⟨Nat.succ_pos j, trivial⟩)]
    have h0 : flushClose st (some 1) = { st with out := ensureNLStr st.out, closed := none } := by
      rw [flushClose_pending st (some 1) q hq]
      have h1 : String.join (List.replicate ((some 1 : Option Nat).getD 2 - 1)
          (trimR st.delim ++ "\n")) = "" := rfl
      rw [h1, String.append_empty]
    rw [h0]
    unfold wrapPre
    rw [write_some_clean _ _ rfl (atBlankStr_ensureNLStr st.out)]
  · simp only [renderListItems]
    rw [if_neg (fun h => Bool.false_ne_true h.2 : ¬(0 < j + 1 ∧ false = true))]
    unfold wrapPre
    rw [write_some_pending st _ q hq]

/-- Witness for C6 at a top-level list state: a pending paragraph closure
after the previous item; the tight continuation adds no blank line while
the loose continuation adds one. -/
theorem c6_tight_item_spacing_witness :
    (({ out := "* a", closed := some (Node.paragraph []) } : MS).closed =
      some (Node.paragraph []))
    ∧ (renderListItems { out := "* a", closed := some (Node.paragraph []) }
          (Node.horizontalRule none) "  " (fun _ => "* ") true (0 + 1)
          (Node.horizontalRule none :: []) =
        renderListItems
          (wrapPost
            (render
              { ({ out := "* a", closed := some (Node.paragraph []) } : MS) with
                  out := ensureNLStr "* a" ++ "" ++ jsDelimVal "* " "  ",
                  delim := "" ++ "  ", closed := none } (Node.horizontalRule none))
            "" (Node.horizontalRule none))
          (Node.horizontalRule none) "  " (fun _ => "* ") true (0 + 2) [])
    ∧ (renderListItems { out := "* a", closed := some (Node.paragraph []) }
          (Node.horizontalRule none) "  " (fun _ => "* ") false (0 + 1)
          (Node.horizontalRule none :: []) =
        renderListItems
          (wrapPost
            (render
              { ({ out := "* a", closed := some (Node.paragraph []) } : MS) with
                  out := (ensureNLStr "* a" ++ (trimR "" ++ "\n")) ++ "" ++ jsDelimVal "* " "  ",
                  delim := "" ++ "  ", closed := none } (Node.horizontalRule none))
            "" (Node.horizontalRule none))
          (Node.horizontalRule none) "  " (fun _ => "* ") false (0 + 2) []) :=
  ⟨rfl,
    (c6_tight_item_spacing { out := "* a", closed := some (Node.paragraph []) }
      (Node.horizontalRule none) "  " (fun _ => "* ") 0 (Node.horizontalRule none) []
      (Node.paragraph []) rfl).1,
    (c6_tight_item_spacing { out := "* a", closed := some (Node.paragraph []) }
      (Node.horizontalRule none) "  " (fun _ => "* ") 0 (Node.horizontalRule none) []
      (Node.paragraph []) rfl).2.1⟩

/-! ### Separation of adjacent same-kind lists (claim C5) -/

theorem trimR_empty : trimR "" = "" := rfl

theorem str_append_space_ne (x : String) : x ++ " " ≠ "" := by
  intro h
  have h2 : (x ++ " ").toList = ("" : String).toList := by rw [h]
  rw [toList_append] at h2
  simp at h2

theorem jsDelimVal_ne (f d : String) (h : f ≠ "") : jsDelimVal f d = f := by
  unfold jsDelimVal
  rw [if_neg h]

theorem atBlankStr_two_newlines (a : String) : atBlankStr (a ++ "\n\n") = true := by
  have h : (a ++ "\n\n") = (a ++ "\n") ++ "\n" := by
    rw [String.append_assoc]
    rfl
  rw [h]
  exact atBlankStr_append_newline _

theorem renderListItems_first (stA : MS) (parent : Node) (d : String) (fd : Nat → String)
    (tg : Bool) (x : Node) (xs : List Node)
    (hc : stA.closed = none) (hb : atBlankStr stA.out = true) :
    renderListItems stA parent d fd tg 0 (x :: xs) =
      renderListItems
        (wrapPost
          (render
            { stA with
                out := stA.out ++ stA.delim ++ jsDelimVal (fd 0) d,
                delim := stA.delim ++ d } x)
          stA.delim parent)
        parent d fd tg 1 xs := by
  simp only [renderListItems]
  rw [if_neg (fun h => absurd h.1 (Nat.lt_irrefl 0) : ¬(0 < 0 ∧ tg = true))]
  unfold wrapPre
  rw [write_some_clean _ _ hc hb]

theorem renderListItems_first_pending (stA : MS) (parent : Node) (d : String)
    (fd : Nat → String) (tg : Bool) (x : Node) (xs : List Node) (q : Node)
    (hq : stA.closed = some q) :
    renderListItems stA parent d fd tg 0 (x :: xs) =
      renderListItems
        (wrapPost
          (render
            { stA with
                out := (ensureNLStr stA.out ++ (trimR stA.delim ++ "\n")) ++ stA.delim ++
                  jsDelimVal (fd 0) d,
                delim := stA.delim ++ d, closed := none } x)
          stA.delim parent)
        parent d fd tg 1 xs := by
  simp only [renderListItems]
  rw [if_neg (fun h => absurd h.1 (Nat.lt_irrefl 0) : ¬(0 < 0 ∧ tg = true))]
  unfold wrapPre
  rw [write_some_pending _ _ q hq]

theorem str_append_suffix_ne (x y : String) (hy : y.toList ≠ []) : x ++ y ≠ "" := by
  intro h
  have h2 : (x ++ y).toList = ([] : List Char) := by rw [h]; rfl
  rw [toList_append] at h2
  exact hy (List.append_eq_nil.mp h2).2

theorem orderedFd_ne_empty (start maxW i : Nat) : orderedFd start maxW i ≠ "" :=
  str_append_suffix_ne _ ". " (by decide)

/-- C5: rendering a list from a state whose pending closed block is a list
of the same kind forces `flushClose(3)`, so the output continues with
exactly two blank lines and then the first item's prefix; when the
pending block is of any other kind (and no ambient tight list is active)
the default deferred close runs instead and exactly one blank line
precedes the first item's prefix.  Stated for both list kinds. -/
theorem c5_same_kind_list_separation (st : MS) (b : Option String) (o : Option Nat)
    (tg : Bool) (x : Node) (xs : List Node) (q : Node)
    (hq : st.closed = some q) (hd : st.delim = "") :
    (q.kind = NodeKind.bulletList →
      ∃ tail, (render st (Node.bulletList b tg (x :: xs))).out =
        ensureNLStr st.out ++ "\n\n" ++ (jsOrStr b "*" ++ " ") ++ tail)
    ∧ (q.kind ≠ NodeKind.bulletList → st.inTightList = false →
      ∃ tail, (render st (Node.bulletList b tg (x :: xs))).out =
        ensureNLStr st.out ++ "\n" ++ (jsOrStr b "*" ++ " ") ++ tail)
    ∧ (q.kind = NodeKind.orderedList →
      ∃ tail, (render st (Node.orderedList o tg (x :: xs))).out =
        ensureNLStr st.out ++ "\n\n" ++
          orderedFd (jsOrNat o 1) ((natToDec (jsOrNat o 1 + (x :: xs).length - 1)).length) 0 ++
          tail)
    ∧ (q.kind ≠ NodeKind.orderedList → st.inTightList = false →
      ∃ tail, (render st (Node.orderedList o tg (x :: xs))).out =
        ensureNLStr st.out ++ "\n" ++
          orderedFd (jsOrNat o 1) ((natToDec (jsOrNat o 1 + (x :: xs).length - 1)).length) 0 ++
          tail) := by
  refine ⟨?_, ?_, ?_, ?_⟩
  · intro hkind
    have hlf : listFlushKind st NodeKind.bulletList = true := by
      simp [listFlushKind, hq, hkind]
    simp only [render]
    rw [if_pos hlf]
    rw [flushClose_pending st (some 3) q hq, hd]
    have hjoin : String.join (List.replicate ((some 3 : Option Nat).getD 2 - 1)
        (trimR "" ++ "\n")) = "\n\n" := rfl
    rw [hjoin]
    rw [renderListItems_first _ _ _ _ _ x xs rfl (atBlankStr_two_newlines _)]
    simp only [jsDelimVal_ne (jsOrStr b "*" ++ " ") "  " (str_append_space_ne _)]
    obtain ⟨u1, hu1⟩ := out_monotone.1
      { delim := "" ++ "  ",
        out := ensureNLStr st.out ++ "\n\n" ++ "" ++ (jsOrStr b "*" ++ " "),
        closed := none, inTightList := tg, hardBreak := st.hardBreak } x
    obtain ⟨u2, hu2⟩ := out_monotone.2.1 _ (Node.bulletList b tg (x :: xs)) "  "
      (fun _ => jsOrStr b "*" ++ " ") tg 1 xs
    refine ⟨u1 ++ u2, ?_⟩
    rw [hu2, wrapPost_out, hu1]
    simp [String.append_assoc, String.append_empty]
  · intro hkind htight
    have hlf : listFlushKind st NodeKind.bulletList = false := by
      simp only [listFlushKind, hq]
      exact beq_eq_false_iff_ne.mpr hkind
    simp only [render]
    rw [if_neg (by rw [hlf]; exact Bool.false_ne_true),
      if_neg (by rw [htight]; exact Bool.false_ne_true)]
    rw [renderListItems_first_pending { st with inTightList := tg }
      (Node.bulletList b tg (x :: xs)) "  " (fun _ => jsOrStr b "*" ++ " ") tg x xs q hq]
    simp only [jsDelimVal_ne (jsOrStr b "*" ++ " ") "  " (str_append_space_ne _)]
    obtain ⟨u1, hu1⟩ := out_monotone.1
      { delim := st.delim ++ "  ",
        out := (ensureNLStr st.out ++ (trimR st.delim ++ "\n")) ++ st.delim ++
          (jsOrStr b "*" ++ " "),
        closed := none, inTightList := tg, hardBreak := st.hardBreak } x
    obtain ⟨u2, hu2⟩ := out_monotone.2.1 _ (Node.bulletList b tg (x :: xs)) "  "
      (fun _ => jsOrStr b "*" ++ " ") tg 1 xs
    refine ⟨u1 ++ u2, ?_⟩
    rw [hu2, wrapPost_out, hu1]
    rw [hd, trimR_empty, String.empty_append]
    simp [String.append_assoc, String.append_empty]
  · intro hkind
    have hlf : listFlushKind st NodeKind.orderedList = true := by
      simp [listFlushKind, hq, hkind]
    simp only [render]
    rw [if_pos hlf]
    rw [flushClose_pending st (some 3) q hq, hd]
    have hjoin : String.join (List.replicate ((some 3 : Option Nat).getD 2 - 1)
        (trimR "" ++ "\n")) = "\n\n" := rfl
    rw [hjoin]
    rw [renderListItems_first _ _ _ _ _ x xs rfl (atBlankStr_two_newlines _)]
    simp only [jsDelimVal_ne (orderedFd _ _ 0) _ (orderedFd_ne_empty _ _ 0)]
    obtain ⟨u1, hu1⟩ := out_monotone.1
      { delim := "" ++ repeatStr " "
          ((natToDec (jsOrNat o 1 + (x :: xs).length - 1)).length + 2),
        out := ensureNLStr st.out ++ "\n\n" ++ "" ++
          orderedFd (jsOrNat o 1) ((natToDec (jsOrNat o 1 + (x :: xs).length - 1)).length) 0,
        closed := none, inTightList := tg, hardBreak := st.hardBreak } x
    obtain ⟨u2, hu2⟩ := out_monotone.2.1 _ (Node.orderedList o tg (x :: xs))
      (repeatStr " " ((natToDec (jsOrNat o 1 + (x :: xs).length - 1)).length + 2))
      (fun i => orderedFd (jsOrNat o 1)
        ((natToDec (jsOrNat o 1 + (x :: xs).length - 1)).length) i) tg 1 xs
    refine ⟨u1 ++ u2, ?_⟩
    rw [hu2, wrapPost_out, hu1]
    simp [String.append_assoc, String.append_empty]
  · intro hkind htight
    have hlf : listFlushKind st NodeKind.orderedList = false := by
      simp only [listFlushKind, hq]
      exact beq_eq_false_iff_ne.mpr hkind
    simp only [render]
    rw [if_neg (by rw [hlf]; exact Bool.false_ne_true),
      if_neg (by rw [htight]; exact Bool.false_ne_true)]
    rw [renderListItems_first_pending { st with inTightList := tg }
      (Node.orderedList o tg (x :: xs))
      (repeatStr " " ((natToDec (jsOrNat o 1 + (x :: xs).length - 1)).length + 2))
      (fun i => orderedFd (jsOrNat o 1)
        ((natToDec (jsOrNat o 1 + (x :: xs).length - 1)).length) i) tg x xs q hq]
    simp only [jsDelimVal_ne (orderedFd _ _ 0) _ (orderedFd_ne_empty _ _ 0)]
    obtain ⟨u1, hu1⟩ := out_monotone.1
      { delim := st.delim ++ repeatStr " "
          ((natToDec (jsOrNat o 1 + (x :: xs).length - 1)).length + 2),
        out := (ensureNLStr st.out ++ (trimR st.delim ++ "\n")) ++ st.delim ++
          orderedFd (jsOrNat o 1) ((natToDec (jsOrNat o 1 + (x :: xs).length - 1)).length) 0,
        closed := none, inTightList := tg, hardBreak := st.hardBreak } x
    obtain ⟨u2, hu2⟩ := out_monotone.2.1 _ (Node.orderedList o tg (x :: xs))
      (repeatStr " " ((natToDec (jsOrNat o 1 + (x :: xs).length - 1)).length + 2))
      (fun i => orderedFd (jsOrNat o 1)
        ((natToDec (jsOrNat o 1 + (x :: xs).length - 1)).length) i) tg 1 xs
    refine ⟨u1 ++ u2, ?_⟩
    rw [hu2, wrapPost_out, hu1]
    rw [hd, trimR_empty, String.empty_append]
    simp [String.append_assoc, String.append_empty]

/-- Witness for C5: after a finished bullet list (pending close of a
bullet-list node) a second bullet list is rendered with two blank lines
before its first item prefix. -/
theorem c5_same_kind_list_separation_witness :
    ∃ tail, (render { out := "* a", closed := some (Node.bulletList none false []) }
        (Node.bulletList none false (Node.listItem [] :: []))).out =
      ensureNLStr "* a" ++ "\n\n" ++ (jsOrStr none "*" ++ " ") ++ tail :=
  (c5_same_kind_list_separation { out := "* a", closed := some (Node.bulletList none false []) }
    none none false (Node.listItem []) [] (Node.bulletList none false []) rfl rfl).1 rfl

/-! ### Ordered-list number alignment (claim C7) -/

theorem natDigits_fuel (n : Nat) :
    ∀ f1 f2, n < f1 → n < f2 → natDigits f1 n = natDigits f2 n := by
  induction n using Nat.strong_induction_on with
  | _ n ih =>
    intro f1 f2 h1 h2
    cases f1 with
    | zero => omega
    | succ fa =>
      cases f2 with
      | zero => omega
      | succ fb =>
        by_cases hn : n < 10
        · simp [natDigits, hn]
        · simp only [natDigits, hn, if_false, reduceIte]
          have hdiv : n / 10 < n := Nat.div_lt_self (by omega) (by omega)
          rw [ih (n / 10) hdiv fa fb (by omega) (by omega)]

theorem natDigits_len_mono (n : Nat) :
    ∀ m, m ≤ n → (natDigits (m + 1) m).length ≤ (natDigits (n + 1) n).length := by
  induction n using Nat.strong_induction_on with
  | _ n ih =>
    intro m hmn
    by_cases hn : n < 10
    · have hm : m < 10 := by omega
      simp [natDigits, hn, hm]
    · by_cases hm : m < 10
      · simp [natDigits, hm, hn]
      · simp only [natDigits, hm, hn, if_false, reduceIte, List.length_append,
          List.length_singleton]
        have hdm : m / 10 < m := Nat.div_lt_self (by omega) (by omega)
        have hdn : n / 10 < n := Nat.div_lt_self (by omega) (by omega)
        have e1 : natDigits m (m / 10) = natDigits (m / 10 + 1) (m / 10) :=
          natDigits_fuel (m / 10) m (m / 10 + 1) (by omega) (Nat.lt_succ_self _)
        have e2 : natDigits n (n / 10) = natDigits (n / 10 + 1) (n / 10) :=
          natDigits_fuel (n / 10) n (n / 10 + 1) (by omega) (Nat.lt_succ_self _)
        rw [e1, e2]
        have hr := ih (n / 10) hdn (m / 10) (Nat.div_le_div_right hmn)
        omega

theorem natToDec_len_mono (m n : Nat) (h : m ≤ n) :
    (natToDec m).length ≤ (natToDec n).length :=
  natDigits_len_mono n m h

theorem flatten_replicate_singleton_len (c : Char) :
    ∀ n, ((List.replicate n [c]).flatten).length = n := by
  intro n
  induction n with
  | zero => rfl
  | succ k ih => simp [List.replicate_succ, ih]

theorem repeatStr_space_length (n : Nat) : (repeatStr " " n).length = n := by
  unfold repeatStr
  rw [String.join_eq]
  show ((List.replicate n (" " : String)).map String.data).flatten.length = n
  rw [List.map_replicate]
  exact flatten_replicate_singleton_len ' ' n

theorem orderedFd_length (start maxW i : Nat) (h : (natToDec (start + i)).length ≤ maxW) :
    (orderedFd start maxW i).length = maxW + 2 := by
  unfold orderedFd
  rw [String.length_append, String.length_append, repeatStr_space_length]
  have h2 : (". " : String).length = 2 := rfl
  rw [h2]
  omega

set_option maxRecDepth 400000 in
unseal render renderContent renderInlineNodes progress renderListItems in
/-- C7: ordered-list item prefixes are the item number right-aligned with
spaces to the digit width of the largest item number (`start + count - 1`)
followed by `". "`, so every prefix has that width plus two; continuation
lines are indented by a matching number of spaces; and the concrete list
with `start = 9` and tight one-line items `a`, `b` serializes to ` 9. a`
and `10. b` on consecutive lines. -/
theorem c7_ordered_alignment (start count i : Nat) (hi : i < count) :
    ((orderedFd start ((natToDec (start + count - 1)).length) i).length =
        (natToDec (start + count - 1)).length + 2
      ∧ (repeatStr " " ((natToDec (start + count - 1)).length + 2)).length =
        (natToDec (start + count - 1)).length + 2)
    ∧ toMarkdown [Node.orderedList (some 9) true
        [Node.listItem [Node.paragraph [Node.text "a" []]],
         Node.listItem [Node.paragraph [Node.text "b" []]]]] none = " 9. a\n10. b" := by
  refine ⟨⟨?_, repeatStr_space_length _⟩, ?_⟩
  · apply orderedFd_length
    apply natToDec_len_mono
    omega
  · rfl

/-- Witness for C7 at `start = 9`, `count = 2`, second item: the prefix
`10. ` has width `2 + 2`. -/
theorem c7_ordered_alignment_witness :
    (1 < 2)
    ∧ (((orderedFd 9 ((natToDec (9 + 2 - 1)).length) 1).length =
          (natToDec (9 + 2 - 1)).length + 2
        ∧ (repeatStr " " ((natToDec (9 + 2 - 1)).length + 2)).length =
          (natToDec (9 + 2 - 1)).length + 2)
      ∧ toMarkdown [Node.orderedList (some 9) true
          [Node.listItem [Node.paragraph [Node.text "a" []]],
           Node.listItem [Node.paragraph [Node.text "b" []]]]] none = " 9. a\n10. b") :=
  ⟨by decide, c7_ordered_alignment 9 2 1 (by decide)⟩

end PM
